import Mathlib

/-
Verification of the task-generation logic of `src/lamplib/src/genny/tasks/auto_tasks.py`:
parsing of `AutoRun` metadata (`Workload.__init__` / `_validate_auto_run`), task
derivation (`all_tasks`, `generate_requested_tasks`, `snake_case_base_name`,
`_to_snake_case`, `_dedup_task`) and DSI task selection (`Repo.generate_dsi_tasks`).

Python machine model: fallible computations return `Except PyErr`; `PyErr`
distinguishes the Python exception classes the module can raise.  Raw YAML
values are modelled level by level (operand of a condition operator, condition
expression, ThenRun element, AutoRun block, ...), which covers every shape whose
handling the module distinguishes.  Python string operations (`str.split`,
`str.replace`, `os.path.splitext`, `re.sub` for the two fixed patterns) are
implemented on `List Char` with structural (fuel) recursion so that concrete
runs reduce in the kernel.
-/

deriving instance DecidableEq for Except

/-- Python exceptions distinguished by the module. -/
inductive PyErr where
  | keyError (key : String)
  | typeError (msg : String)
  | valueError (msg : String)
  | assertionError
  | attributeError (msg : String)
deriving DecidableEq, Repr

/-- Operand of a condition operator, e.g. the value of `"$eq"`:
a scalar, a list of scalars, or a small mapping. -/
inductive Operand where
  | str (v : String)
  | olist (items : List String)
  | omap (entries : List (String × String))
deriving DecidableEq, Repr

/-- The value a condition key maps to inside a `When` mapping: normally a
mapping of operator to operand, but raw YAML also allows scalars and lists. -/
inductive CondExpr where
  | opMap (entries : List (String × Operand))
  | str (v : String)
  | slist (items : List String)
deriving DecidableEq, Repr

/-- The value a bootstrap key maps to inside a ThenRun single-entry mapping. -/
inductive TVal where
  | str (v : String)
  | vlist (items : List String)
  | vmap (entries : List (String × String))
deriving DecidableEq, Repr

/-- One element of a raw ThenRun sequence: normally a mapping. -/
inductive TElem where
  | map (entries : List (String × TVal))
  | str (v : String)
  | elist (items : List String)
deriving DecidableEq, Repr

/-- The value a key maps to inside a raw AutoRun block: a mapping (as expected
under `When`), a sequence (as expected under `ThenRun`), or a scalar. -/
inductive BVal where
  | condMap (entries : List (String × CondExpr))
  | runList (items : List TElem)
  | str (v : String)
deriving DecidableEq, Repr

/-- One element of a raw AutoRun sequence: normally a mapping (a block). -/
inductive BlockV where
  | map (entries : List (String × BVal))
  | str (v : String)
  | blist (items : List TElem)
deriving DecidableEq, Repr

/-- The value of the top-level `AutoRun` key. -/
inductive TopVal where
  | alist (items : List BlockV)
  | str (v : String)
deriving DecidableEq, Repr

/-- `class AutoRunBlock(NamedTuple)`: one validated `When`/`ThenRun` pair.
`when` holds the entries of the `When` mapping, `then_run` the raw ThenRun
sequence (empty when the block has no `ThenRun`). -/
structure AutoRunBlock where
  when : List (String × CondExpr)
  then_run : List TElem
deriving DecidableEq, Repr

/-- `class Workload`: `file_path` and the parsed `auto_run_info`
(`none` when the file has no `AutoRun` key). -/
structure Workload where
  workspace_root : String
  file_path : String
  auto_run_info : Option (List AutoRunBlock) := none
deriving DecidableEq, Repr

/-- `class GeneratedTask(NamedTuple)`. -/
structure GeneratedTask where
  name : String
  bootstrap_key : Option String
  bootstrap_value : Option String
  workload : Workload
deriving DecidableEq, Repr

/-- `class DsiTask(NamedTuple)`.  `bootstrap_vars` is an association list in
insertion order, modelling the Python dict. -/
structure DsiTask where
  name : String
  runs_on_variants : List Operand
  bootstrap_vars : List (String × Option String)
deriving DecidableEq, Repr

/-! ### ASCII character classes and Python string primitives -/

/-- The regex class `[A-Z]`. -/
def isUpperC (c : Char) : Bool := decide (65 ≤ c.toNat ∧ c.toNat ≤ 90)

/-- The regex class `[a-z]`. -/
def isLowerC (c : Char) : Bool := decide (97 ≤ c.toNat ∧ c.toNat ≤ 122)

/-- The regex class `[a-z0-9]`. -/
def isLowerDigitC (c : Char) : Bool :=
  decide ((97 ≤ c.toNat ∧ c.toNat ≤ 122) ∨ (48 ≤ c.toNat ∧ c.toNat ≤ 57))

/-- ASCII lowercasing of one character (`str.lower`, restricted to the ASCII
letters that the module's regex classes distinguish). -/
def toLowerAscii (c : Char) : Char :=
  if 65 ≤ c.toNat ∧ c.toNat ≤ 90 then Char.ofNat (c.toNat + 32) else c

/-- `str.split(sep)` for a nonempty separator, on char lists; `fuel` is spent
one unit per step so the definition is structural and kernel-reducible. -/
def py_split_aux (sep : List Char) : Nat → List Char → List Char → List (List Char)
  | 0, l, acc => [acc.reverse ++ l]
  | _ + 1, [], acc => [acc.reverse]
  | fuel + 1, c :: rest, acc =>
    if sep.isPrefixOf (c :: rest) then
      acc.reverse :: py_split_aux sep fuel (List.drop sep.length (c :: rest)) []
    else
      py_split_aux sep fuel rest (c :: acc)

/-- `s.split(sep)` (Python `str.split` with an explicit separator). -/
def py_split (s sep : String) : List String :=
  if sep.data.isEmpty then [s]
  else (py_split_aux sep.data s.data.length s.data []).map (fun l => ⟨l⟩)

/-- `s.replace(pat, repl)` (Python `str.replace`, all occurrences). -/
def py_replace_aux (pat repl : List Char) : Nat → List Char → List Char
  | 0, l => l
  | _ + 1, [] => []
  | fuel + 1, c :: rest =>
    if pat.isPrefixOf (c :: rest) then
      repl ++ py_replace_aux pat repl fuel (List.drop pat.length (c :: rest))
    else
      c :: py_replace_aux pat repl fuel rest

/-- `s.replace(pat, repl)` for a nonempty pattern. -/
def py_replace (s pat repl : String) : String :=
  if pat.data.isEmpty then s
  else ⟨py_replace_aux pat.data repl.data s.data.length s.data⟩

/-- Index of the last occurrence of `ch` (Python `str.rfind`, as an `Option`). -/
def last_index_of (ch : Char) : List Char → Option Nat
  | [] => none
  | c :: rest =>
    match last_index_of ch rest with
    | some i => some (i + 1)
    | none => if c = ch then some 0 else none

/-- The root part of `os.path.splitext(p)` (POSIX): strip the extension at the
last dot of the final path component, unless the component consists of leading
dots up to that position. -/
def splitext_root (p : String) : String :=
  let l := p.data
  match last_index_of '.' l with
  | none => p
  | some d =>
    let s := match last_index_of '/' l with
      | some si => si + 1
      | none => 0
    if s ≤ d then
      if ((l.drop s).take (d - s)).any (fun c => c != '.') then ⟨l.take d⟩ else p
    else p

/-- `"_".join(parts)` (Python `str.join` with `"_"`). -/
def join_underscore : List String → String
  | [] => ""
  | [x] => x
  | x :: xs => x ++ "_" ++ join_underscore xs

/-! ### `Workload._to_snake_case`

`s1 = re.sub("(.)([A-Z][a-z]+)", r"\1_\2", camel_case)`
`s2 = re.sub("-", "_", s1)`
`return re.sub("([a-z0-9])([A-Z])", r"\1_\2", s2).lower()` -/

/-- One pass of `re.sub("(.)([A-Z][a-z]+)", r"\1_\2", ·)`: scan left to right,
on a match (any non-newline char, an uppercase char, a maximal nonempty run of
lowercase chars) insert `_` after the first char and resume after the match.
`fuel` makes the recursion structural. -/
def sub_camel1_aux : Nat → List Char → List Char
  | 0, l => l
  | _ + 1, [] => []
  | _ + 1, [c] => [c]
  | fuel + 1, c :: u :: rest2 =>
    if c != '\n' && isUpperC u && !(rest2.takeWhile isLowerC).isEmpty then
      c :: '_' :: u :: (rest2.takeWhile isLowerC ++ sub_camel1_aux fuel (rest2.dropWhile isLowerC))
    else
      c :: sub_camel1_aux fuel (u :: rest2)

def sub_camel1 (l : List Char) : List Char := sub_camel1_aux l.length l

/-- `re.sub("-", "_", ·)`. -/
def sub_dash (l : List Char) : List Char := l.map (fun c => if c = '-' then '_' else c)

/-- `re.sub("([a-z0-9])([A-Z])", r"\1_\2", ·)`: insert `_` between a
lowercase-or-digit char and an uppercase char, resuming after each match. -/
def sub_camel2 : List Char → List Char
  | [] => []
  | [c] => [c]
  | c :: u :: rest =>
    if isLowerDigitC c && isUpperC u then c :: '_' :: u :: sub_camel2 rest
    else c :: sub_camel2 (u :: rest)

/-- `Workload._to_snake_case`. -/
def to_snake_case (s : String) : String :=
  ⟨(sub_camel2 (sub_dash (sub_camel1 s.data))).map toLowerAscii⟩

/-! ### Base-name computation and task derivation -/

/-- `Workload._get_relative_path_from_src_workloads`: split the file path on
`"src/workloads/"`; anything but exactly two parts raises `ValueError`. -/
def get_relative_path_from_src_workloads (file_path : String) : Except PyErr String :=
  match py_split file_path "src/workloads/" with
  | [_, rel] => .ok rel
  | _ => .error (.valueError "Invalid workload path")

/-- `Workload.snake_case_base_name`: take the path below `src/workloads/`,
drop the extension, split on `/`; a single segment is converted alone,
otherwise the first segment is dropped and the rest are converted and joined
with `_`. -/
def snake_case_base_name (w : Workload) : Except PyErr String := do
  let rel ← get_relative_path_from_src_workloads w.file_path
  match py_split (splitext_root rel) "/" with
  | [single] => pure (to_snake_case single)
  | segs => pure (join_underscore ((segs.drop 1).map to_snake_case))

/-- `Workload.relative_path`: `self.file_path.replace(self.workspace_root, ".")`. -/
def relative_path (w : Workload) : String := py_replace w.file_path w.workspace_root "."

/-- Lexicographic comparison of char lists by code point (Python string
comparison, non-strict). -/
def charListLe : List Char → List Char → Bool
  | [], _ => true
  | _ :: _, [] => false
  | a :: as, b :: bs => if a = b then charListLe as bs else decide (a.toNat < b.toNat)

/-- Python `a <= b` on strings. -/
def strLe (a b : String) : Bool := charListLe a.data b.data

/-- Comparison of optional strings, totalised by sorting `none` first (Python
only ever compares two `None`s or two strings here, see `_dedup_task`). -/
def optLe : Option String → Option String → Bool
  | none, _ => true
  | some _, none => false
  | some a, some b => strLe a b

/-- Lexicographic combination of two comparisons (Python tuple comparison,
one component). -/
def lexB {α β : Type} [DecidableEq α] (la : α → α → Bool) (lb : β → β → Bool)
    (p q : α × β) : Bool :=
  if p.1 = q.1 then lb p.2 q.2 else la p.1 q.1

def taskTuple (t : GeneratedTask) : String × (Option String × (Option String × String)) :=
  (t.name, t.bootstrap_key, t.bootstrap_value, t.workload.file_path)

/-- The total order of `GeneratedTask` tuple comparison used by `sorted`:
name, then bootstrap key, then bootstrap value, then workload path. -/
def taskLeB (a b : GeneratedTask) : Bool :=
  lexB strLe (lexB optLe (lexB optLe strLe)) (taskTuple a) (taskTuple b)

def taskLe (a b : GeneratedTask) : Prop := taskLeB a b = true

instance : DecidableRel taskLe := fun a b => inferInstanceAs (Decidable (taskLeB a b = true))

/-- `Workload._dedup_task`: `sorted(list(set(tasks)))` — drop duplicates, then
sort by the tuple order. -/
def dedup_task (tasks : List GeneratedTask) : List GeneratedTask :=
  List.insertionSort taskLe tasks.dedup

/-- Creation of one task from a ThenRun entry inside
`Workload.generate_requested_tasks`: `assert len(then_run_block) == 1`, then
`[(bootstrap_key, bootstrap_value)] = then_run_block.items()` and
`f"{self.snake_case_base_name}_{self._to_snake_case(bootstrap_value)}"`. -/
def generate_requested_task_of (w : Workload) (trb : TElem) : Except PyErr GeneratedTask :=
  match trb with
  | .map [] => .error .assertionError
  | .map [(bootstrap_key, .str sv)] => do
    let base ← snake_case_base_name w
    pure ⟨base ++ "_" ++ to_snake_case sv, some bootstrap_key, some sv, w⟩
  | .map [(_, .vlist _)] => do
    let _ ← snake_case_base_name w
    .error (.typeError "expected string or bytes-like object")
  | .map [(_, .vmap _)] => do
    let _ ← snake_case_base_name w
    .error (.typeError "expected string or bytes-like object")
  | .map (_ :: _ :: _) => .error .assertionError
  | .str v => if v.length ≠ 1 then .error .assertionError else .error (.attributeError "items")
  | .elist items =>
    if items.length ≠ 1 then .error .assertionError else .error (.attributeError "items")

def generate_requested_tasks_loop (w : Workload) : List TElem → Except PyErr (List GeneratedTask)
  | [] => .ok []
  | trb :: rest => do
    let t ← generate_requested_task_of w trb
    let ts ← generate_requested_tasks_loop w rest
    pure (t :: ts)

/-- `Workload.generate_requested_tasks`: an empty `then_run` contributes the
base task; every ThenRun entry contributes one suffixed task. -/
def generate_requested_tasks (w : Workload) (then_run : List TElem) :
    Except PyErr (List GeneratedTask) := do
  let first ← if then_run.isEmpty then do
      let base ← snake_case_base_name w
      pure [({ name := base, bootstrap_key := none, bootstrap_value := none,
               workload := w } : GeneratedTask)]
    else pure []
  let rest ← generate_requested_tasks_loop w then_run
  pure (first ++ rest)

def all_tasks_loop (w : Workload) : List AutoRunBlock → Except PyErr (List GeneratedTask)
  | [] => .ok []
  | b :: rest => do
    let ts ← generate_requested_tasks w b.then_run
    let rs ← all_tasks_loop w rest
    pure (ts ++ rs)

/-- `Workload.all_tasks`.  Python tests `if not self.auto_run_info:` which is
true both for `None` and for the empty block list. -/
def all_tasks (w : Workload) : Except PyErr (List GeneratedTask) :=
  match w.auto_run_info with
  | none => do
    let b ← snake_case_base_name w
    pure [({ name := b, bootstrap_key := none, bootstrap_value := none,
             workload := w } : GeneratedTask)]
  | some [] => do
    let b ← snake_case_base_name w
    pure [({ name := b, bootstrap_key := none, bootstrap_value := none,
             workload := w } : GeneratedTask)]
  | some blocks => do
    let tasks ← all_tasks_loop w blocks
    pure (dedup_task tasks)

/-- `Repo.tasks`: concatenation of `all_tasks` over all workloads in listing
order. -/
def repo_tasks : List Workload → Except PyErr (List GeneratedTask)
  | [] => .ok []
  | w :: rest => do
    let ts ← all_tasks w
    let rs ← repo_tasks rest
    pure (ts ++ rs)

/-! ### Parsing and validation (`Workload.__init__`, `_validate_auto_run`) -/

/-- Python `needle in hay` for strings (substring test), for a nonempty needle. -/
def is_substr (needle hay : String) : Bool :=
  if needle.data.isEmpty then true else (py_split hay needle).length != 1

/-- Python `k in block` on a raw AutoRun block: key membership for a mapping,
substring test for a string, element comparison for a list. -/
def block_contains (b : BlockV) (k : String) : Bool :=
  match b with
  | .map entries => entries.any (fun kv => kv.1 == k)
  | .str v => is_substr k v
  | .blist items => items.any (fun e => e == TElem.str k)

/-- Python `block[k]`: mapping lookup (`KeyError` when absent), `TypeError`
on a string or list. -/
def block_getitem (b : BlockV) (k : String) : Except PyErr BVal :=
  match b with
  | .map entries =>
    match entries.find? (fun kv => kv.1 == k) with
    | some kv => .ok kv.2
    | none => .error (.keyError k)
  | .str _ => .error (.typeError "string indices must be integers")
  | .blist _ => .error (.typeError "list indices must be integers")

def validate_then_run_elems : List TElem → Except PyErr Unit
  | [] => .ok ()
  | .map entries :: rest =>
    if entries.length ≠ 1 then
      .error (.valueError "Each block in ThenRun must contain one key/value pair")
    else validate_then_run_elems rest
  | _ :: _ => .error (.valueError "Each block in ThenRun must be of type dict")

/-- Validation of one AutoRun block.  Python line 235 reads
`if not isinstance(block["When"], dict) or "When" not in block:`; the
subscript `block["When"]` is evaluated before the membership test, so a
mapping without a `When` key raises `KeyError` and the second disjunct is
unreachable. -/
def validate_block (block : BlockV) : Except PyErr Unit := do
  let whenV ← block_getitem block "When"
  match whenV with
  | .condMap _ =>
    if block_contains block "ThenRun" then do
      let tr ← block_getitem block "ThenRun"
      match tr with
      | .runList items => validate_then_run_elems items
      | _ => .error (.valueError "ThenRun must be of type list")
    else .ok ()
  | _ =>
    .error (.valueError "Each AutoRun block must consist of a When and optional ThenRun section")

def validate_blocks : List BlockV → Except PyErr Unit
  | [] => .ok ()
  | b :: rest => do
    validate_block b
    validate_blocks rest

/-- `Workload._validate_auto_run`. -/
def validate_auto_run (auto_run : TopVal) : Except PyErr Unit :=
  match auto_run with
  | .alist blocks => validate_blocks blocks
  | _ => .error (.valueError "AutoRun must be a list")

/-- Construction of one `AutoRunBlock` inside `Workload.__init__` (after
validation): `then_run = block["ThenRun"] if "ThenRun" in block else []`,
then `AutoRunBlock(block["When"], then_run)`. -/
def build_auto_run_block (block : BlockV) : Except PyErr AutoRunBlock := do
  let then_run ← if block_contains block "ThenRun" then do
      let tr ← block_getitem block "ThenRun"
      match tr with
      | .runList items => pure items
      | _ => .error (.typeError "unreachable after validation")
    else pure []
  let whenV ← block_getitem block "When"
  match whenV with
  | .condMap entries => pure (AutoRunBlock.mk entries then_run)
  | _ => .error (.typeError "unreachable after validation")

def build_auto_run_blocks : List BlockV → Except PyErr (List AutoRunBlock)
  | [] => .ok []
  | b :: rest => do
    let ab ← build_auto_run_block b
    let abs ← build_auto_run_blocks rest
    pure (ab :: abs)

/-- `Workload.__init__` on already deserialized contents: absent `AutoRun`
gives `auto_run_info = none`; a non-list `AutoRun` raises `ValueError`;
otherwise the blocks are validated and stored. -/
def workload_init (workspace_root file_path : String) (conts : List (String × TopVal)) :
    Except PyErr Workload := do
  match conts.find? (fun kv => kv.1 == "AutoRun") with
  | none => pure (Workload.mk workspace_root file_path none)
  | some kv =>
    match kv.2 with
    | .alist blocks => do
      validate_auto_run (.alist blocks)
      let abs ← build_auto_run_blocks blocks
      pure (Workload.mk workspace_root file_path (some abs))
    | _ => .error (.valueError "AutoRun must be a list")

/-! ### DSI task selection (`Repo.generate_dsi_tasks`) -/

/-- Python `"$eq" in condition` on a `When` value. -/
def cond_has_eq (c : CondExpr) : Bool :=
  match c with
  | .opMap entries => entries.any (fun kv => kv.1 == "$eq")
  | .str v => is_substr "$eq" v
  | .slist items => items.any (fun e => e == "$eq")

/-- Python `condition["$eq"]`. -/
def cond_get_eq (c : CondExpr) : Except PyErr Operand :=
  match c with
  | .opMap entries =>
    match entries.find? (fun kv => kv.1 == "$eq") with
    | some kv => .ok kv.2
    | none => .error (.keyError "$eq")
  | .str _ => .error (.typeError "string indices must be integers")
  | .slist _ => .error (.typeError "list indices must be integers")

/-- The inner loop of `Repo.generate_dsi_tasks` over `when.items()`:
`if "$eq" in condition and key == "mongodb_setup":` collect the operand,
extending with list elements, appending any other operand whole. -/
def variants_of_when : List (String × CondExpr) → Except PyErr (List Operand)
  | [] => .ok []
  | (key, condition) :: rest =>
    if cond_has_eq condition && key == "mongodb_setup" then do
      let acceptable ← cond_get_eq condition
      let tail ← variants_of_when rest
      match acceptable with
      | .olist items => .ok (items.map Operand.str ++ tail)
      | v => .ok (v :: tail)
    else variants_of_when rest

/-- The variant collection of `Repo.generate_dsi_tasks`: iterate over ALL
blocks of the task's workload. -/
def compute_variants : List AutoRunBlock → Except PyErr (List Operand)
  | [] => .ok []
  | b :: rest => do
    let vs ← variants_of_when b.when
    let tail ← compute_variants rest
    .ok (vs ++ tail)

/-- Python dict insertion `d[k] = v`: overwrite in place or append. -/
def dict_set (d : List (String × Option String)) (k : String) (v : Option String) :
    List (String × Option String) :=
  if d.any (fun kv => kv.1 == k) then d.map (fun kv => if kv.1 == k then (k, v) else kv)
  else d ++ [(k, v)]

/-- Python dict lookup (as an `Option`). -/
def dict_get (d : List (String × Option String)) (k : String) : Option (Option String) :=
  (d.find? (fun kv => kv.1 == k)).map (fun kv => kv.2)

/-- The `bootstrap_vars` dict built per task in `Repo.generate_dsi_tasks`:
`{"test_control": task.name, "auto_workload_path": task.workload.relative_path}`
plus, when `task.bootstrap_key` is truthy (non-`None`, nonempty), the task's
bootstrap pair via dict insertion. -/
def bootstrap_vars_of (t : GeneratedTask) : List (String × Option String) :=
  let bv := [("test_control", some t.name),
             ("auto_workload_path", some (relative_path t.workload))]
  match t.bootstrap_key with
  | some k => if k ≠ "" then dict_set bv k t.bootstrap_value else bv
  | none => bv

/-- The `valid_task` decision of `Repo.generate_dsi_tasks`:
`if modified and bootstrap_vars["auto_workload_path"] in modified_files`,
`elif variant is not None and variant in variants`,
`elif variant is None and modified is False`. -/
def dsi_valid (modified : Bool) (variant : Option String) (modified_files : List String)
    (variants : List Operand) (bootstrap_vars : List (String × Option String)) : Bool :=
  if modified && (match dict_get bootstrap_vars "auto_workload_path" with
      | some (some p) => modified_files.contains p
      | _ => false) then true
  else if (match variant with
      | some v => variants.contains (Operand.str v)
      | none => false) then true
  else if variant.isNone && !modified then true
  else false

/-- The per-task loop of `Repo.generate_dsi_tasks`: skip tasks whose workload
has `auto_run_info is None`, collect variants over all blocks, build
`bootstrap_vars`, and keep the task according to the selection mode. -/
def dsi_task_loop (modified : Bool) (variant : Option String) (modified_files : List String) :
    List GeneratedTask → Except PyErr (List DsiTask)
  | [] => .ok []
  | t :: rest =>
    match t.workload.auto_run_info with
    | none => dsi_task_loop modified variant modified_files rest
    | some blocks => do
      let variants ← compute_variants blocks
      let tail ← dsi_task_loop modified variant modified_files rest
      if dsi_valid modified variant modified_files variants (bootstrap_vars_of t) then
        .ok ({ name := t.name, runs_on_variants := variants,
               bootstrap_vars := bootstrap_vars_of t } :: tail)
      else .ok tail

/-- `Repo.generate_dsi_tasks`: derive all tasks, then select.  The set of
modified workload files is supplied by the external version-control
collaborator. -/
def generate_dsi_tasks (workloads : List Workload) (modified : Bool) (variant : Option String)
    (modified_files : List String) : Except PyErr (List DsiTask) := do
  let tasks ← repo_tasks workloads
  dsi_task_loop modified variant modified_files tasks


/-! ### Spec-side definitions and derived predicates -/

/-- The task-name invariant: no ASCII uppercase letter and no `-` character. -/
def clean_str (s : String) : Prop := ∀ c ∈ s.data, isUpperC c = false ∧ c ≠ '-'

/-- A ThenRun entry of the shape every validated workload with string values
carries: a single-entry mapping whose value is a scalar string. -/
def is_single_str_pair (trb : TElem) : Bool :=
  match trb with
  | .map [(_, .str _)] => true
  | _ => false

/-- Spec-side (C2 wording): a list operand is flattened into its elements, any
other operand is a single value. -/
def operand_flatten : Operand → List Operand
  | .olist items => items.map Operand.str
  | .str v => [.str v]
  | .omap entries => [.omap entries]

/-- Spec-side (C2 wording): the variants one condition contributes — the
operand of a `"mongodb_setup"` condition that carries an `"$eq"` operator,
flattened. -/
def when_cond_variants (key : String) (c : CondExpr) : List Operand :=
  if key = "mongodb_setup" then
    match c with
    | .opMap entries =>
      match entries.find? (fun kv => kv.1 == "$eq") with
      | some kv => operand_flatten kv.2
      | none => []
    | _ => []
  else []

/-- Spec-side (C2 wording): the variants one `When` mapping contributes. -/
def when_variants_spec : List (String × CondExpr) → List Operand
  | [] => []
  | (key, c) :: rest => when_cond_variants key c ++ when_variants_spec rest

/-- Spec-side (C2 wording): a task's variant set is the union, over ALL blocks
of its owning workload, of the `when_variants_spec` contributions. -/
def variants_spec : List AutoRunBlock → List Operand
  | [] => []
  | b :: rest => when_variants_spec b.when ++ variants_spec rest

/-- Spec-side: the selection loop with each task's variant set computed as
`variants_spec` over ALL blocks of its owning workload. -/
def dsi_task_loop_spec (modified : Bool) (variant : Option String)
    (modified_files : List String) : List GeneratedTask → List DsiTask
  | [] => []
  | t :: rest =>
    match t.workload.auto_run_info with
    | none => dsi_task_loop_spec modified variant modified_files rest
    | some blocks =>
      if dsi_valid modified variant modified_files (variants_spec blocks)
          (bootstrap_vars_of t) then
        { name := t.name, runs_on_variants := variants_spec blocks,
          bootstrap_vars := bootstrap_vars_of t } ::
          dsi_task_loop_spec modified variant modified_files rest
      else dsi_task_loop_spec modified variant modified_files rest

/-! ### Concrete workloads used in the claim instances -/

def wl_insert_remove : Workload :=
  { workspace_root := "/ws", file_path := "src/workloads/scale/InsertRemove.yml" }

def conts_my_test : List (String × TopVal) :=
  [("AutoRun", .alist [.map
    [("When", .condMap [("mongodb_setup", .opMap [("$eq", .str "standalone")])]),
     ("ThenRun", .runList [.map [("bootstrap_key", .str "a")],
                           .map [("bootstrap_key", .str "b")]])]])]

def wl_my_test : Workload :=
  { workspace_root := "/ws", file_path := "src/workloads/scale/NestedDir/MyTest.yml",
    auto_run_info := some [⟨[("mongodb_setup", .opMap [("$eq", .str "standalone")])],
      [.map [("bootstrap_key", .str "a")], .map [("bootstrap_key", .str "b")]]⟩] }

def task_my_test_a : GeneratedTask :=
  ⟨"nested_dir_my_test_a", some "bootstrap_key", some "a", wl_my_test⟩

def task_my_test_b : GeneratedTask :=
  ⟨"nested_dir_my_test_b", some "bootstrap_key", some "b", wl_my_test⟩

def dsi_my_test_a : DsiTask :=
  { name := "nested_dir_my_test_a", runs_on_variants := [.str "standalone"],
    bootstrap_vars := [("test_control", some "nested_dir_my_test_a"),
                       ("auto_workload_path", some "src/workloads/scale/NestedDir/MyTest.yml"),
                       ("bootstrap_key", some "a")] }

def dsi_my_test_b : DsiTask :=
  { name := "nested_dir_my_test_b", runs_on_variants := [.str "standalone"],
    bootstrap_vars := [("test_control", some "nested_dir_my_test_b"),
                       ("auto_workload_path", some "src/workloads/scale/NestedDir/MyTest.yml"),
                       ("bootstrap_key", some "b")] }

def conts_empty_auto_run : List (String × TopVal) := [("AutoRun", .alist [])]

def wl_empty_auto_run : Workload :=
  { workspace_root := "/ws", file_path := "/ws/src/workloads/a/B.yml",
    auto_run_info := some [] }

def task_empty_auto_run : GeneratedTask := ⟨"b", none, none, wl_empty_auto_run⟩

def wl_no_autorun : Workload :=
  { workspace_root := "/ws", file_path := "/ws/src/workloads/a/C.yml" }

def task_no_autorun : GeneratedTask := ⟨"c", none, none, wl_no_autorun⟩

def conts_key_collision : List (String × TopVal) :=
  [("AutoRun", .alist [.map
    [("When", .condMap [("mongodb_setup", .opMap [("$eq", .str "v1")])]),
     ("ThenRun", .runList [.map [("test_control", .str "x")]])]])]

def wl_key_collision : Workload :=
  { workspace_root := "/ws", file_path := "/ws/src/workloads/a/B.yml",
    auto_run_info := some [⟨[("mongodb_setup", .opMap [("$eq", .str "v1")])],
      [.map [("test_control", .str "x")]]⟩] }

def wl_bad_path : Workload := { workspace_root := "/ws", file_path := "foo.yml" }

def wl_two_when_blocks : Workload :=
  { workspace_root := "/ws", file_path := "/ws/src/workloads/a/B.yml",
    auto_run_info := some [⟨[("mongodb_setup", .opMap [("$eq", .str "v1")])], []⟩,
                           ⟨[("mongodb_setup", .opMap [("$eq", .str "v2")])], []⟩] }

def conts_missing_when : List (String × TopVal) :=
  [("AutoRun", .alist [.map [("ThenRun", .runList [])]])]

def conts_when_not_mapping : List (String × TopVal) :=
  [("AutoRun", .alist [.map [("When", .str "standalone")]])]

/-- `Except` result carries a value (never raised). -/
def except_is_ok {ε α : Type} : Except ε α → Bool
  | .ok _ => true
  | .error _ => false

/-! ### The tuple order is total and transitive -/

theorem charListLe_total : ∀ a b : List Char, charListLe a b = true ∨ charListLe b a = true := by
  intro a
  induction a with
  | nil => intro b; cases b <;> simp [charListLe]
  | cons x xs ih =>
    intro b
    cases b with
    | nil => right; simp [charListLe]
    | cons y ys =>
      by_cases h : x = y
      · subst h; simpa [charListLe] using ih ys
      · have h2 : x.toNat ≠ y.toNat := fun he => h (Char.ext (UInt32.ext he))
        simp only [charListLe, if_neg h, if_neg (Ne.symm h), decide_eq_true_eq]
        omega

theorem charListLe_trans :
    ∀ a b c : List Char, charListLe a b = true → charListLe b c = true →
    charListLe a c = true := by
  intro a
  induction a with
  | nil => intro b c _ _; cases c <;> simp [charListLe]
  | cons x xs ih =>
    intro b c h1 h2
    cases b with
    | nil => simp [charListLe] at h1
    | cons y ys =>
      cases c with
      | nil => simp [charListLe] at h2
      | cons z zs =>
        by_cases hxy : x = y <;> by_cases hyz : y = z
        · subst hxy; subst hyz
          simp only [charListLe, if_pos rfl] at h1 h2 ⊢
          exact ih ys zs h1 h2
        · subst hxy
          simp only [charListLe, if_pos rfl, if_neg hyz, decide_eq_true_eq] at h2
          have hxz : x ≠ z := fun he => by subst he; omega
          simp only [charListLe, if_neg hxz, decide_eq_true_eq]
          exact h2
        · subst hyz
          simp only [charListLe, if_neg hxy, decide_eq_true_eq] at h1
          have hxz : x ≠ y := hxy
          simp only [charListLe, if_neg hxy, decide_eq_true_eq]
          exact h1
        · simp only [charListLe, if_neg hxy, decide_eq_true_eq] at h1
          simp only [charListLe, if_neg hyz, decide_eq_true_eq] at h2
          have hxz : x ≠ z := fun he => by subst he; omega
          simp only [charListLe, if_neg hxz, decide_eq_true_eq]
          omega

theorem charListLe_antisymm :
    ∀ a b : List Char, charListLe a b = true → charListLe b a = true → a = b := by
  intro a
  induction a with
  | nil => intro b h1 h2; cases b with
    | nil => rfl
    | cons y ys => simp [charListLe] at h2
  | cons x xs ih =>
    intro b h1 h2
    cases b with
    | nil => simp [charListLe] at h1
    | cons y ys =>
      by_cases h : x = y
      · subst h
        simp only [charListLe, if_pos rfl] at h1 h2
        rw [ih ys h1 h2]
      · simp only [charListLe, if_neg h, decide_eq_true_eq] at h1
        simp only [charListLe, if_neg (Ne.symm h), decide_eq_true_eq] at h2
        omega

theorem strLe_total (a b : String) : strLe a b = true ∨ strLe b a = true :=
  charListLe_total a.data b.data

theorem strLe_trans (a b c : String) (h1 : strLe a b = true) (h2 : strLe b c = true) :
    strLe a c = true :=
  charListLe_trans a.data b.data c.data h1 h2

theorem strLe_antisymm (a b : String) (h1 : strLe a b = true) (h2 : strLe b a = true) :
    a = b := by
  cases a with
  | mk da =>
    cases b with
    | mk db => exact congrArg String.mk (charListLe_antisymm da db h1 h2)

theorem optLe_total (a b : Option String) : optLe a b = true ∨ optLe b a = true := by
  cases a <;> cases b <;> simp [optLe]
  exact strLe_total _ _

theorem optLe_trans (a b c : Option String) (h1 : optLe a b = true) (h2 : optLe b c = true) :
    optLe a c = true := by
  cases a <;> cases b <;> cases c <;> simp_all [optLe]
  exact strLe_trans _ _ _ h1 h2

theorem optLe_antisymm (a b : Option String) (h1 : optLe a b = true) (h2 : optLe b a = true) :
    a = b := by
  cases a <;> cases b <;> simp_all [optLe]
  exact strLe_antisymm _ _ h1 h2

theorem lexB_total {α β : Type} [DecidableEq α] (la : α → α → Bool) (lb : β → β → Bool)
    (hA : ∀ x y, la x y = true ∨ la y x = true)
    (hB : ∀ x y, lb x y = true ∨ lb y x = true) :
    ∀ p q, lexB la lb p q = true ∨ lexB la lb q p = true := by
  intro p q
  by_cases h : p.1 = q.1
  · simp [lexB, h]; exact hB _ _
  · simp [lexB, h, Ne.symm h]; exact hA _ _

theorem lexB_trans {α β : Type} [DecidableEq α] (la : α → α → Bool) (lb : β → β → Bool)
    (haT : ∀ x y z, la x y = true → la y z = true → la x z = true)
    (haAS : ∀ x y, la x y = true → la y x = true → x = y)
    (hbT : ∀ x y z, lb x y = true → lb y z = true → lb x z = true) :
    ∀ p q r, lexB la lb p q = true → lexB la lb q r = true → lexB la lb p r = true := by
  intro p q r h1 h2
  by_cases e12 : p.1 = q.1 <;> by_cases e23 : q.1 = r.1
  · simp only [lexB, if_pos e12] at h1
    simp only [lexB, if_pos e23] at h2
    simp only [lexB, if_pos (e12.trans e23)]
    exact hbT _ _ _ h1 h2
  · simp only [lexB, if_pos e12] at h1
    simp only [lexB, if_neg e23] at h2
    simp only [lexB, if_neg (show p.1 ≠ r.1 from fun he => e23 (e12.symm.trans he))]
    exact e12.symm ▸ h2
  · simp only [lexB, if_neg e12] at h1
    simp only [lexB, if_pos e23] at h2
    simp only [lexB, if_neg (show p.1 ≠ r.1 from fun he => e12 (he.trans e23.symm))]
    exact e23 ▸ h1
  · simp only [lexB, if_neg e12] at h1
    simp only [lexB, if_neg e23] at h2
    by_cases e13 : p.1 = r.1
    · exact absurd (haAS _ _ h1 (e13 ▸ h2)) e12
    · simp only [lexB, if_neg e13]
      exact haT _ _ _ h1 h2

instance : IsTotal GeneratedTask taskLe :=
  ⟨fun a b =>
    lexB_total _ _ strLe_total
      (lexB_total _ _ optLe_total (lexB_total _ _ optLe_total strLe_total))
      (taskTuple a) (taskTuple b)⟩

instance : IsTrans GeneratedTask taskLe :=
  ⟨fun a b c h1 h2 =>
    lexB_trans _ _ strLe_trans strLe_antisymm
      (lexB_trans _ _ optLe_trans optLe_antisymm
        (lexB_trans _ _ optLe_trans optLe_antisymm strLe_trans))
      (taskTuple a) (taskTuple b) (taskTuple c) h1 h2⟩

/-! ### Properties of the snake-case conversion -/

theorem char_toNat_ofNat (n : Nat) (h : n < 55296) : (Char.ofNat n).toNat = n := by
  simp [Char.ofNat, Nat.isValidChar, h]
  rfl

theorem toLower_not_upper (c : Char) : isUpperC (toLowerAscii c) = false := by
  unfold toLowerAscii
  by_cases h : 65 ≤ c.toNat ∧ c.toNat ≤ 90
  · rw [if_pos h]
    have hn : (Char.ofNat (c.toNat + 32)).toNat = c.toNat + 32 := char_toNat_ofNat _ (by omega)
    simp only [isUpperC, decide_eq_false_iff_not, hn]
    omega
  · rw [if_neg h]
    simp only [isUpperC, decide_eq_false_iff_not]
    exact h

theorem toLower_id (c : Char) (h : isUpperC c = false) : toLowerAscii c = c := by
  unfold toLowerAscii
  rw [if_neg]
  simp only [isUpperC, decide_eq_false_iff_not] at h
  exact h

theorem toLower_ne_dash (c : Char) (h : c ≠ '-') : toLowerAscii c ≠ '-' := by
  unfold toLowerAscii
  by_cases hu : 65 ≤ c.toNat ∧ c.toNat ≤ 90
  · rw [if_pos hu]
    intro he
    have hx := congrArg Char.toNat he
    rw [char_toNat_ofNat _ (by omega)] at hx
    have hd : ('-').toNat = 45 := by decide
    omega
  · rw [if_neg hu]; exact h

theorem mem_of_mem_takeWhile {α : Type} (p : α → Bool) :
    ∀ (l : List α) (c : α), c ∈ l.takeWhile p → c ∈ l := by
  intro l
  induction l with
  | nil => intro c h; simp at h
  | cons x xs ih =>
    intro c h
    by_cases hp : p x = true
    · rw [List.takeWhile_cons, if_pos hp] at h
      rcases List.mem_cons.mp h with h1 | h2
      · exact h1 ▸ List.mem_cons_self x xs
      · exact List.mem_cons_of_mem _ (ih c h2)
    · rw [List.takeWhile_cons, if_neg hp] at h
      simp at h

theorem mem_of_mem_dropWhile {α : Type} (p : α → Bool) :
    ∀ (l : List α) (c : α), c ∈ l.dropWhile p → c ∈ l := by
  intro l
  induction l with
  | nil => intro c h; simp at h
  | cons x xs ih =>
    intro c h
    by_cases hp : p x = true
    · rw [List.dropWhile_cons, if_pos hp] at h
      exact List.mem_cons_of_mem _ (ih c h)
    · rw [List.dropWhile_cons, if_neg hp] at h
      exact h

theorem sub_camel1_aux_id :
    ∀ (fuel : Nat) (l : List Char), (∀ c ∈ l, isUpperC c = false) →
    sub_camel1_aux fuel l = l := by
  intro fuel
  induction fuel with
  | zero => intro l _; rfl
  | succ n ih =>
    intro l h
    cases l with
    | nil => rfl
    | cons c rest =>
      cases rest with
      | nil => rfl
      | cons u rest2 =>
        have hu : isUpperC u = false := h u (by simp)
        simp only [sub_camel1_aux, hu, Bool.and_false, Bool.false_and, if_false,
          Bool.false_eq_true]
        exact congrArg (c :: ·) (ih (u :: rest2) (fun x hx => h x (List.mem_cons_of_mem _ hx)))

theorem sub_camel1_aux_subset :
    ∀ (fuel : Nat) (l : List Char) (c : Char), c ∈ sub_camel1_aux fuel l → c ∈ l ∨ c = '_' := by
  intro fuel
  induction fuel with
  | zero => intro l c h; exact Or.inl h
  | succ n ih =>
    intro l c h
    cases l with
    | nil => simp [sub_camel1_aux] at h
    | cons c0 rest =>
      cases rest with
      | nil =>
        simp only [sub_camel1_aux] at h
        exact Or.inl h
      | cons u rest2 =>
        by_cases hg : (c0 != '\n' && isUpperC u && !(rest2.takeWhile isLowerC).isEmpty) = true
        · rw [sub_camel1_aux, if_pos hg] at h
          simp only [List.mem_cons, List.mem_append] at h
          rcases h with h | h | h | h | h
          · exact Or.inl (by simp [h])
          · exact Or.inr h
          · exact Or.inl (by simp [h])
          · exact Or.inl (by
              have := mem_of_mem_takeWhile isLowerC rest2 c h
              simp [this])
          · rcases ih _ c h with h1 | h1
            · exact Or.inl (by
                have := mem_of_mem_dropWhile isLowerC rest2 c h1
                simp [this])
            · exact Or.inr h1
        · rw [sub_camel1_aux, if_neg hg] at h
          rcases List.mem_cons.mp h with h1 | h1
          · exact Or.inl (by simp [h1])
          · rcases ih _ c h1 with h2 | h2
            · exact Or.inl (List.mem_cons_of_mem _ h2)
            · exact Or.inr h2

theorem sub_camel1_id (l : List Char) (h : ∀ c ∈ l, isUpperC c = false) : sub_camel1 l = l :=
  sub_camel1_aux_id l.length l h

theorem sub_camel1_subset (l : List Char) (c : Char) (h : c ∈ sub_camel1 l) : c ∈ l ∨ c = '_' :=
  sub_camel1_aux_subset l.length l c h

theorem sub_dash_no_dash (l : List Char) (c : Char) (h : c ∈ sub_dash l) : c ≠ '-' := by
  simp only [sub_dash, List.mem_map] at h
  obtain ⟨a, _, ha⟩ := h
  by_cases hd : a = '-'
  · rw [hd] at ha; simp at ha; rw [← ha]; decide
  · rw [if_neg hd] at ha; rw [← ha]; exact hd

theorem sub_dash_id (l : List Char) (h : ∀ c ∈ l, c ≠ '-') : sub_dash l = l := by
  induction l with
  | nil => rfl
  | cons x xs ih =>
    simp only [sub_dash, List.map_cons]
    rw [if_neg (h x (by simp))]
    exact congrArg (x :: ·) (ih (fun c hc => h c (List.mem_cons_of_mem _ hc)))

theorem sub_dash_no_upper (l : List Char) (h : ∀ c ∈ l, isUpperC c = false) :
    ∀ c ∈ sub_dash l, isUpperC c = false := by
  intro c hc
  simp only [sub_dash, List.mem_map] at hc
  obtain ⟨a, ha, hae⟩ := hc
  by_cases hd : a = '-'
  · rw [hd] at hae; simp at hae; rw [← hae]; decide
  · rw [if_neg hd] at hae; rw [← hae]; exact h a ha

theorem sub_camel2_id :
    ∀ l : List Char, (∀ c ∈ l, isUpperC c = false) → sub_camel2 l = l := by
  intro l
  induction l with
  | nil => intro _; rfl
  | cons c rest ih =>
    intro h
    cases rest with
    | nil => rfl
    | cons u rest2 =>
      have hu : isUpperC u = false := h u (by simp)
      simp only [sub_camel2, hu, Bool.and_false, if_false, Bool.false_eq_true]
      exact congrArg (c :: ·) (ih (fun x hx => h x (List.mem_cons_of_mem _ hx)))

theorem sub_camel2_subset_aux :
    ∀ (n : Nat) (l : List Char), l.length ≤ n → ∀ c, c ∈ sub_camel2 l → c ∈ l ∨ c = '_' := by
  intro n
  induction n with
  | zero =>
    intro l hl c hc
    cases l with
    | nil => simp [sub_camel2] at hc
    | cons x xs => simp at hl
  | succ n ih =>
    intro l hl c hc
    cases l with
    | nil => simp [sub_camel2] at hc
    | cons c0 rest =>
      cases rest with
      | nil =>
        simp only [sub_camel2] at hc
        exact Or.inl hc
      | cons u rest2 =>
        simp only [List.length_cons] at hl
        by_cases hg : (isLowerDigitC c0 && isUpperC u) = true
        · rw [sub_camel2, if_pos hg] at hc
          simp only [List.mem_cons] at hc
          rcases hc with h | h | h | h
          · exact Or.inl (by simp [h])
          · exact Or.inr h
          · exact Or.inl (by simp [h])
          · rcases ih rest2 (by omega) c h with h1 | h1
            · exact Or.inl (by simp [h1])
            · exact Or.inr h1
        · rw [sub_camel2, if_neg hg] at hc
          rcases List.mem_cons.mp hc with h | h
          · exact Or.inl (by simp [h])
          · rcases ih (u :: rest2) (by simp only [List.length_cons]; omega) c h with h1 | h1
            · exact Or.inl (List.mem_cons_of_mem _ h1)
            · exact Or.inr h1

theorem sub_camel2_subset (l : List Char) (c : Char) (h : c ∈ sub_camel2 l) :
    c ∈ l ∨ c = '_' :=
  sub_camel2_subset_aux l.length l le_rfl c h

theorem map_toLower_no_upper (l : List Char) (c : Char) (h : c ∈ l.map toLowerAscii) :
    isUpperC c = false := by
  obtain ⟨a, _, rfl⟩ := List.mem_map.mp h
  exact toLower_not_upper a

theorem map_toLower_id (l : List Char) (h : ∀ c ∈ l, isUpperC c = false) :
    l.map toLowerAscii = l := by
  induction l with
  | nil => rfl
  | cons x xs ih =>
    simp only [List.map_cons]
    rw [toLower_id x (h x (by simp))]
    exact congrArg (x :: ·) (ih (fun c hc => h c (List.mem_cons_of_mem _ hc)))

theorem string_mk_data (s : String) : String.mk s.data = s := by
  cases s
  rfl

theorem to_snake_clean (s : String) : clean_str (to_snake_case s) := by
  intro c hc
  have hdata : (to_snake_case s).data
      = (sub_camel2 (sub_dash (sub_camel1 s.data))).map toLowerAscii := rfl
  rw [hdata] at hc
  refine ⟨map_toLower_no_upper _ _ hc, ?_⟩
  obtain ⟨a, ha, rfl⟩ := List.mem_map.mp hc
  apply toLower_ne_dash
  rcases sub_camel2_subset _ a ha with h1 | h1
  · exact sub_dash_no_dash _ a h1
  · rw [h1]; decide

theorem to_snake_id_of_clean (s : String) (h : clean_str s) : to_snake_case s = s := by
  unfold to_snake_case
  rw [sub_camel1_id s.data (fun c hc => (h c hc).1)]
  rw [sub_dash_id s.data (fun c hc => (h c hc).2)]
  rw [sub_camel2_id s.data (fun c hc => (h c hc).1)]
  rw [map_toLower_id s.data (fun c hc => (h c hc).1)]

/-! ### Plumbing lemmas for `Except` -/

theorem except_bind_ok {ε α β : Type} (a : α) (f : α → Except ε β) :
    (Except.ok a >>= f) = f a := rfl

theorem except_bind_error {ε α β : Type} (e : ε) (f : α → Except ε β) :
    ((Except.error e : Except ε α) >>= f) = .error e := rfl

theorem except_pure {ε α : Type} (a : α) : (pure a : Except ε α) = .ok a := rfl

/-! ### Every derived task name is clean (machinery for C10) -/

theorem clean_append {a b : String} (ha : clean_str a) (hb : clean_str b) :
    clean_str (a ++ b) := by
  intro c hc
  have hd : (a ++ b).data = a.data ++ b.data := rfl
  rw [hd, List.mem_append] at hc
  rcases hc with h | h
  · exact ha c h
  · exact hb c h

theorem clean_underscore : clean_str "_" := by unfold clean_str; decide

theorem clean_join : ∀ (parts : List String), (∀ s ∈ parts, clean_str s) →
    clean_str (join_underscore parts) := by
  intro parts
  induction parts with
  | nil =>
    intro _ c hc
    exact absurd hc (by simp [join_underscore])
  | cons x xs ih =>
    intro h
    cases xs with
    | nil => exact h x (by simp)
    | cons y ys =>
      exact clean_append (clean_append (h x (by simp)) clean_underscore)
        (ih (fun s hs => h s (List.mem_cons_of_mem _ hs)))

theorem clean_base_name (w : Workload) (n : String)
    (h : snake_case_base_name w = .ok n) : clean_str n := by
  unfold snake_case_base_name at h
  cases hrel : get_relative_path_from_src_workloads w.file_path with
  | error e => rw [hrel, except_bind_error] at h; cases h
  | ok rel =>
    rw [hrel, except_bind_ok] at h
    cases hsp : py_split (splitext_root rel) "/" with
    | nil =>
      rw [hsp] at h
      rw [← Except.ok.inj h]
      exact clean_join _ (by simp)
    | cons a rest =>
      cases rest with
      | nil =>
        rw [hsp] at h
        rw [← Except.ok.inj h]
        exact to_snake_clean a
      | cons b t =>
        rw [hsp] at h
        rw [← Except.ok.inj h]
        apply clean_join
        intro s hs
        obtain ⟨x, _, rfl⟩ := List.mem_map.mp hs
        exact to_snake_clean x

theorem req_task_name_clean (w : Workload) (trb : TElem) (t : GeneratedTask)
    (h : generate_requested_task_of w trb = .ok t) : clean_str t.name := by
  cases trb with
  | map entries =>
    match entries, h with
    | [], h => simp [generate_requested_task_of] at h
    | [(k, TVal.str sv)], h =>
      simp only [generate_requested_task_of] at h
      cases hb : snake_case_base_name w with
      | error e => rw [hb, except_bind_error] at h; cases h
      | ok base =>
        rw [hb, except_bind_ok] at h
        rw [← Except.ok.inj h]
        exact clean_append (clean_append (clean_base_name w base hb) clean_underscore)
          (to_snake_clean sv)
    | [(k, TVal.vlist items)], h =>
      simp only [generate_requested_task_of] at h
      cases hb : snake_case_base_name w with
      | error e => rw [hb, except_bind_error] at h; cases h
      | ok base => rw [hb, except_bind_ok] at h; cases h
    | [(k, TVal.vmap e2)], h =>
      simp only [generate_requested_task_of] at h
      cases hb : snake_case_base_name w with
      | error e => rw [hb, except_bind_error] at h; cases h
      | ok base => rw [hb, except_bind_ok] at h; cases h
    | (p1 :: p2 :: rest), h => simp [generate_requested_task_of] at h
  | str v =>
    simp only [generate_requested_task_of] at h
    by_cases hl : v.length ≠ 1
    · rw [if_pos hl] at h; cases h
    · rw [if_neg hl] at h; cases h
  | elist items =>
    simp only [generate_requested_task_of] at h
    by_cases hl : items.length ≠ 1
    · rw [if_pos hl] at h; cases h
    · rw [if_neg hl] at h; cases h

theorem req_loop_names_clean (w : Workload) :
    ∀ (then_run : List TElem) (ts : List GeneratedTask),
    generate_requested_tasks_loop w then_run = .ok ts → ∀ t ∈ ts, clean_str t.name := by
  intro then_run
  induction then_run with
  | nil =>
    intro ts h t ht
    rw [show generate_requested_tasks_loop w [] = .ok [] from rfl, Except.ok.injEq] at h
    rw [← h] at ht
    simp at ht
  | cons trb rest ih =>
    intro ts h t ht
    unfold generate_requested_tasks_loop at h
    cases h1 : generate_requested_task_of w trb with
    | error e => rw [h1, except_bind_error] at h; cases h
    | ok t0 =>
      rw [h1, except_bind_ok] at h
      cases h2 : generate_requested_tasks_loop w rest with
      | error e => rw [h2, except_bind_error] at h; cases h
      | ok ts0 =>
        rw [h2, except_bind_ok, except_pure, Except.ok.injEq] at h
        rw [← h] at ht
        rcases List.mem_cons.mp ht with h3 | h3
        · rw [h3]; exact req_task_name_clean w trb t0 h1
        · exact ih ts0 h2 t h3

theorem gen_req_names_clean (w : Workload) (then_run : List TElem) (ts : List GeneratedTask)
    (h : generate_requested_tasks w then_run = .ok ts) : ∀ t ∈ ts, clean_str t.name := by
  intro t ht
  unfold generate_requested_tasks at h
  by_cases he : then_run.isEmpty
  · rw [if_pos he] at h
    cases hb : snake_case_base_name w with
    | error e => simp only [hb, except_bind_error] at h; cases h
    | ok base =>
      simp only [hb, except_bind_ok, except_pure] at h
      cases h2 : generate_requested_tasks_loop w then_run with
      | error e => simp only [h2, except_bind_error] at h; cases h
      | ok ts0 =>
        simp only [h2, except_bind_ok, except_pure, Except.ok.injEq] at h
        rw [← h] at ht
        rcases List.mem_append.mp ht with h3 | h3
        · rcases List.mem_singleton.mp h3 with rfl
          exact clean_base_name w base hb
        · exact req_loop_names_clean w then_run ts0 h2 t h3
  · rw [if_neg he] at h
    simp only [except_pure, except_bind_ok] at h
    cases h2 : generate_requested_tasks_loop w then_run with
    | error e => simp only [h2, except_bind_error] at h; cases h
    | ok ts0 =>
      simp only [h2, except_bind_ok, except_pure, Except.ok.injEq] at h
      rw [← h] at ht
      rcases List.mem_append.mp ht with h3 | h3
      · simp at h3
      · exact req_loop_names_clean w then_run ts0 h2 t h3

theorem all_tasks_loop_names_clean (w : Workload) :
    ∀ (blocks : List AutoRunBlock) (ts : List GeneratedTask),
    all_tasks_loop w blocks = .ok ts → ∀ t ∈ ts, clean_str t.name := by
  intro blocks
  induction blocks with
  | nil =>
    intro ts h t ht
    rw [show all_tasks_loop w [] = .ok [] from rfl, Except.ok.injEq] at h
    rw [← h] at ht
    simp at ht
  | cons b rest ih =>
    intro ts h t ht
    unfold all_tasks_loop at h
    cases h1 : generate_requested_tasks w b.then_run with
    | error e => rw [h1, except_bind_error] at h; cases h
    | ok ts1 =>
      rw [h1, except_bind_ok] at h
      cases h2 : all_tasks_loop w rest with
      | error e => rw [h2, except_bind_error] at h; cases h
      | ok ts2 =>
        rw [h2, except_bind_ok, except_pure, Except.ok.injEq] at h
        rw [← h] at ht
        rcases List.mem_append.mp ht with h3 | h3
        · exact gen_req_names_clean w b.then_run ts1 h1 t h3
        · exact ih ts2 h2 t h3

theorem mem_dedup_task (tasks : List GeneratedTask) (t : GeneratedTask)
    (h : t ∈ dedup_task tasks) : t ∈ tasks := by
  unfold dedup_task at h
  have hp := List.perm_insertionSort taskLe tasks.dedup
  exact List.mem_dedup.mp (hp.mem_iff.mp h)

theorem all_tasks_names_clean (w : Workload) (ts : List GeneratedTask)
    (h : all_tasks w = .ok ts) : ∀ t ∈ ts, clean_str t.name := by
  intro t ht
  unfold all_tasks at h
  cases har : w.auto_run_info with
  | none =>
    rw [har] at h
    cases hb : snake_case_base_name w with
    | error e => rw [hb, except_bind_error] at h; cases h
    | ok base =>
      rw [hb, except_bind_ok, except_pure, Except.ok.injEq] at h
      rw [← h] at ht
      rcases List.mem_singleton.mp ht with rfl
      exact clean_base_name w base hb
  | some blocks =>
    cases blocks with
    | nil =>
      rw [har] at h
      cases hb : snake_case_base_name w with
      | error e => rw [hb, except_bind_error] at h; cases h
      | ok base =>
        rw [hb, except_bind_ok, except_pure, Except.ok.injEq] at h
        rw [← h] at ht
        rcases List.mem_singleton.mp ht with rfl
        exact clean_base_name w base hb
    | cons b rest =>
      simp only [har] at h
      cases h1 : all_tasks_loop w (b :: rest) with
      | error e => simp only [h1, except_bind_error] at h; cases h
      | ok ts1 =>
        simp only [h1, except_bind_ok, except_pure, Except.ok.injEq] at h
        rw [← h] at ht
        exact all_tasks_loop_names_clean w (b :: rest) ts1 h1 t (mem_dedup_task ts1 t ht)

/-! ### Deduplication and ordering of `all_tasks` results (machinery for C6) -/

theorem dedup_task_nodup (tasks : List GeneratedTask) : (dedup_task tasks).Nodup :=
  ((List.perm_insertionSort taskLe tasks.dedup).symm).nodup (List.nodup_dedup tasks)

theorem dedup_task_sorted (tasks : List GeneratedTask) :
    List.Sorted taskLe (dedup_task tasks) :=
  List.sorted_insertionSort taskLe tasks.dedup

theorem all_tasks_nodup_sorted (w : Workload) (ts : List GeneratedTask)
    (h : all_tasks w = .ok ts) : ts.Nodup ∧ List.Sorted taskLe ts := by
  unfold all_tasks at h
  cases har : w.auto_run_info with
  | none =>
    rw [har] at h
    cases hb : snake_case_base_name w with
    | error e => simp only [hb, except_bind_error] at h; cases h
    | ok base =>
      simp only [hb, except_bind_ok, except_pure, Except.ok.injEq] at h
      rw [← h]
      exact ⟨List.nodup_singleton _, List.sorted_singleton _⟩
  | some blocks =>
    cases blocks with
    | nil =>
      rw [har] at h
      cases hb : snake_case_base_name w with
      | error e => simp only [hb, except_bind_error] at h; cases h
      | ok base =>
        simp only [hb, except_bind_ok, except_pure, Except.ok.injEq] at h
        rw [← h]
        exact ⟨List.nodup_singleton _, List.sorted_singleton _⟩
    | cons b rest =>
      simp only [har] at h
      cases h1 : all_tasks_loop w (b :: rest) with
      | error e => simp only [h1, except_bind_error] at h; cases h
      | ok ts1 =>
        simp only [h1, except_bind_ok, except_pure, Except.ok.injEq] at h
        rw [← h]
        exact ⟨dedup_task_nodup ts1, dedup_task_sorted ts1⟩

/-! ### Totality of task derivation on well-formed inputs (machinery for C7, C8) -/

theorem snake_case_base_name_ok (w : Workload) (a b : String)
    (h : py_split w.file_path "src/workloads/" = [a, b]) :
    ∃ n, snake_case_base_name w = .ok n := by
  have hrel : get_relative_path_from_src_workloads w.file_path = .ok b := by
    unfold get_relative_path_from_src_workloads
    rw [h]
  unfold snake_case_base_name
  rw [hrel, except_bind_ok]
  cases hsp : py_split (splitext_root b) "/" with
  | nil => exact ⟨_, rfl⟩
  | cons x xs =>
    cases xs with
    | nil => exact ⟨_, rfl⟩
    | cons y ys => exact ⟨_, rfl⟩

theorem req_task_of_total (w : Workload) (n : String) (hb : snake_case_base_name w = .ok n)
    (trb : TElem) (htrb : is_single_str_pair trb = true) :
    ∃ t, generate_requested_task_of w trb = .ok t := by
  cases trb with
  | map entries =>
    match entries, htrb with
    | [(k, TVal.str sv)], _ =>
      exact ⟨⟨n ++ "_" ++ to_snake_case sv, some k, some sv, w⟩, by
        simp only [generate_requested_task_of, hb, except_bind_ok, except_pure]⟩
  | str v => simp [is_single_str_pair] at htrb
  | elist items => simp [is_single_str_pair] at htrb

theorem req_loop_total (w : Workload) (n : String) (hb : snake_case_base_name w = .ok n) :
    ∀ (then_run : List TElem), (∀ trb ∈ then_run, is_single_str_pair trb = true) →
    ∃ ts, generate_requested_tasks_loop w then_run = .ok ts := by
  intro then_run
  induction then_run with
  | nil => intro _; exact ⟨[], rfl⟩
  | cons trb rest ih =>
    intro h
    obtain ⟨t, ht⟩ := req_task_of_total w n hb trb (h trb (by simp))
    obtain ⟨ts, hts⟩ := ih (fun x hx => h x (List.mem_cons_of_mem _ hx))
    exact ⟨t :: ts, by
      unfold generate_requested_tasks_loop
      rw [ht, except_bind_ok, hts, except_bind_ok, except_pure]⟩

theorem gen_req_total (w : Workload) (n : String) (hb : snake_case_base_name w = .ok n)
    (then_run : List TElem) (h : ∀ trb ∈ then_run, is_single_str_pair trb = true) :
    ∃ ts, generate_requested_tasks w then_run = .ok ts := by
  obtain ⟨ts, hts⟩ := req_loop_total w n hb then_run h
  unfold generate_requested_tasks
  by_cases he : then_run.isEmpty
  · exact ⟨[⟨n, none, none, w⟩] ++ ts, by
      rw [if_pos he]; simp only [hb, except_bind_ok, except_pure, hts]⟩
  · exact ⟨[] ++ ts, by
      rw [if_neg he]; simp only [except_pure, except_bind_ok, hts]⟩

theorem all_tasks_loop_total (w : Workload) (n : String)
    (hb : snake_case_base_name w = .ok n) :
    ∀ (blocks : List AutoRunBlock),
    (∀ bl ∈ blocks, ∀ trb ∈ bl.then_run, is_single_str_pair trb = true) →
    ∃ ts, all_tasks_loop w blocks = .ok ts := by
  intro blocks
  induction blocks with
  | nil => intro _; exact ⟨[], rfl⟩
  | cons bl rest ih =>
    intro h
    obtain ⟨ts1, h1⟩ := gen_req_total w n hb bl.then_run (h bl (by simp))
    obtain ⟨ts2, h2⟩ := ih (fun x hx => h x (List.mem_cons_of_mem _ hx))
    exact ⟨ts1 ++ ts2, by
      unfold all_tasks_loop
      rw [h1, except_bind_ok, h2, except_bind_ok, except_pure]⟩

theorem all_tasks_total (w : Workload) (a b : String)
    (hpath : py_split w.file_path "src/workloads/" = [a, b])
    (hblocks : ∀ bl ∈ w.auto_run_info.getD [], ∀ trb ∈ bl.then_run,
      is_single_str_pair trb = true) :
    ∃ ts, all_tasks w = .ok ts := by
  obtain ⟨n, hb⟩ := snake_case_base_name_ok w a b hpath
  unfold all_tasks
  cases har : w.auto_run_info with
  | none => exact ⟨[⟨n, none, none, w⟩], by simp only [hb, except_bind_ok, except_pure]⟩
  | some blocks =>
    cases blocks with
    | nil => exact ⟨[⟨n, none, none, w⟩], by simp only [hb, except_bind_ok, except_pure]⟩
    | cons bl rest =>
      rw [har] at hblocks
      obtain ⟨ts, hts⟩ := all_tasks_loop_total w n hb (bl :: rest) hblocks
      exact ⟨dedup_task ts, by simp only [hts, except_bind_ok, except_pure]⟩

/-! ### Spec-side variant collection and selection (for C2, C4) -/

theorem find?_some_of_any {α : Type} (p : α → Bool) :
    ∀ l : List α, l.any p = true → ∃ x, l.find? p = some x := by
  intro l
  induction l with
  | nil => intro h; simp at h
  | cons x xs ih =>
    intro h
    by_cases hp : p x = true
    · exact ⟨x, List.find?_cons_of_pos xs hp⟩
    · rw [List.find?_cons_of_neg xs (by simpa using hp)]
      apply ih
      simp only [List.any_cons, hp, Bool.false_or] at h
      exact h

theorem find?_none_of_any_false {α : Type} (p : α → Bool) :
    ∀ l : List α, l.any p = false → l.find? p = none := by
  intro l
  induction l with
  | nil => intro _; rfl
  | cons x xs ih =>
    intro h
    simp only [List.any_cons, Bool.or_eq_false_iff] at h
    rw [List.find?_cons_of_neg xs (by simp [h.1]), ih h.2]

theorem when_cond_variants_not_setup (key : String) (c : CondExpr)
    (h : key ≠ "mongodb_setup") : when_cond_variants key c = [] := by
  unfold when_cond_variants
  rw [if_neg h]

theorem when_cond_variants_setup_opMap (oentries : List (String × Operand)) :
    when_cond_variants "mongodb_setup" (.opMap oentries) =
      (match oentries.find? (fun kv => kv.1 == "$eq") with
       | some kv => operand_flatten kv.2
       | none => []) := by
  unfold when_cond_variants
  rw [if_pos rfl]

theorem when_cond_variants_setup_str (v : String) :
    when_cond_variants "mongodb_setup" (.str v) = [] := by
  unfold when_cond_variants
  rw [if_pos rfl]

theorem when_cond_variants_setup_slist (items : List String) :
    when_cond_variants "mongodb_setup" (.slist items) = [] := by
  unfold when_cond_variants
  rw [if_pos rfl]

theorem variants_of_when_ok :
    ∀ (entries : List (String × CondExpr)) (vs : List Operand),
    variants_of_when entries = .ok vs → vs = when_variants_spec entries := by
  intro entries
  induction entries with
  | nil =>
    intro vs h
    rw [show variants_of_when [] = .ok [] from rfl, Except.ok.injEq] at h
    rw [← h]; rfl
  | cons kc rest ih =>
    obtain ⟨key, c⟩ := kc
    intro vs h
    unfold variants_of_when at h
    show vs = when_cond_variants key c ++ when_variants_spec rest
    by_cases hg : (cond_has_eq c && key == "mongodb_setup") = true
    · rw [if_pos hg] at h
      rw [Bool.and_eq_true, beq_iff_eq] at hg
      obtain ⟨hhe, hkey⟩ := hg
      subst hkey
      cases c with
      | opMap oentries =>
        have hhe2 : oentries.any (fun kv => kv.1 == "$eq") = true := by
          simpa only [cond_has_eq] using hhe
        obtain ⟨kv, hkv⟩ := find?_some_of_any (fun kv => kv.1 == "$eq") oentries hhe2
        have hget : cond_get_eq (.opMap oentries) = .ok kv.2 := by
          simp only [cond_get_eq, hkv]
        simp only [hget, except_bind_ok] at h
        cases ht : variants_of_when rest with
        | error e => simp only [ht, except_bind_error] at h; cases h
        | ok tail =>
          simp only [ht, except_bind_ok] at h
          have htail := ih tail ht
          have hwc : when_cond_variants "mongodb_setup" (.opMap oentries)
              = operand_flatten kv.2 := by
            rw [when_cond_variants_setup_opMap, hkv]
          rw [hwc]
          cases hv : kv.2 with
          | str v =>
            simp only [hv] at h
            rw [← Except.ok.inj h, htail]
            rfl
          | olist items =>
            simp only [hv] at h
            rw [← Except.ok.inj h, htail]
            rfl
          | omap m =>
            simp only [hv] at h
            rw [← Except.ok.inj h, htail]
            rfl
      | str v =>
        simp only [cond_get_eq, except_bind_error] at h; cases h
      | slist items =>
        simp only [cond_get_eq, except_bind_error] at h; cases h
    · rw [if_neg hg] at h
      have htail := ih vs h
      by_cases hk : key = "mongodb_setup"
      · subst hk
        have hhe : cond_has_eq c = false := by
          simpa using hg
        cases c with
        | opMap oentries =>
          have hf : oentries.find? (fun kv => kv.1 == "$eq") = none :=
            find?_none_of_any_false _ oentries (by simpa only [cond_has_eq] using hhe)
          rw [when_cond_variants_setup_opMap, hf, htail]
          rfl
        | str v => rw [when_cond_variants_setup_str, htail]; rfl
        | slist items => rw [when_cond_variants_setup_slist, htail]; rfl
      · rw [when_cond_variants_not_setup key c hk, htail]
        rfl

theorem compute_variants_ok :
    ∀ (blocks : List AutoRunBlock) (vs : List Operand),
    compute_variants blocks = .ok vs → vs = variants_spec blocks := by
  intro blocks
  induction blocks with
  | nil =>
    intro vs h
    rw [show compute_variants [] = .ok [] from rfl, Except.ok.injEq] at h
    rw [← h]; rfl
  | cons b rest ih =>
    intro vs h
    unfold compute_variants at h
    cases h1 : variants_of_when b.when with
    | error e => simp only [h1, except_bind_error] at h; cases h
    | ok vs1 =>
      simp only [h1, except_bind_ok] at h
      cases h2 : compute_variants rest with
      | error e => simp only [h2, except_bind_error] at h; cases h
      | ok vs2 =>
        simp only [h2, except_bind_ok] at h
        rw [← Except.ok.inj h]
        unfold variants_spec
        rw [variants_of_when_ok b.when vs1 h1, ih vs2 h2]

theorem dsi_loop_ok_eq_spec (modified : Bool) (variant : Option String)
    (modified_files : List String) :
    ∀ (tasks : List GeneratedTask) (out : List DsiTask),
    dsi_task_loop modified variant modified_files tasks = .ok out →
    out = dsi_task_loop_spec modified variant modified_files tasks := by
  intro tasks
  induction tasks with
  | nil =>
    intro out h
    rw [show dsi_task_loop modified variant modified_files [] = .ok [] from rfl,
      Except.ok.injEq] at h
    rw [← h]; rfl
  | cons t rest ih =>
    intro out h
    unfold dsi_task_loop at h
    cases har : t.workload.auto_run_info with
    | none =>
      rw [har] at h
      have hs : dsi_task_loop_spec modified variant modified_files (t :: rest)
          = dsi_task_loop_spec modified variant modified_files rest := by
        conv_lhs => unfold dsi_task_loop_spec
        rw [har]
      rw [hs]
      exact ih out h
    | some blocks =>
      simp only [har] at h
      have hs : dsi_task_loop_spec modified variant modified_files (t :: rest)
          = if dsi_valid modified variant modified_files (variants_spec blocks)
              (bootstrap_vars_of t) then
              ({ name := t.name, runs_on_variants := variants_spec blocks,
                 bootstrap_vars := bootstrap_vars_of t } : DsiTask) ::
                dsi_task_loop_spec modified variant modified_files rest
            else dsi_task_loop_spec modified variant modified_files rest := by
        conv_lhs => unfold dsi_task_loop_spec
        rw [har]
      rw [hs]
      cases hv : compute_variants blocks with
      | error e => simp only [hv, except_bind_error] at h; cases h
      | ok vars =>
        simp only [hv, except_bind_ok] at h
        cases ht : dsi_task_loop modified variant modified_files rest with
        | error e => simp only [ht, except_bind_error] at h; cases h
        | ok tail =>
          simp only [ht, except_bind_ok] at h
          have hvars : vars = variants_spec blocks := compute_variants_ok blocks vars hv
          rw [hvars] at h
          by_cases hval : dsi_valid modified variant modified_files (variants_spec blocks)
              (bootstrap_vars_of t) = true
          · rw [if_pos hval] at h ⊢
            rw [← Except.ok.inj h, ih tail ht]
          · rw [if_neg hval] at h ⊢
            rw [← Except.ok.inj h, ih tail ht]

/-- In `ALL` mode (not patch mode, no target variant) `dsi_valid` always
accepts. -/
theorem dsi_valid_all (modified_files : List String) (variants : List Operand)
    (bv : List (String × Option String)) :
    dsi_valid false none modified_files variants bv = true := rfl

/-- Spec-side (C4, amended): in `ALL` mode the selection keeps exactly the
tasks whose workload carries conditional-execution metadata (`auto_run_info`
present, even an empty block list), in order. -/
theorem dsi_loop_spec_all (modified_files : List String) :
    ∀ (tasks : List GeneratedTask),
    dsi_task_loop_spec false none modified_files tasks =
      (tasks.filter (fun t => t.workload.auto_run_info.isSome)).map
        (fun t => { name := t.name,
                    runs_on_variants := variants_spec (t.workload.auto_run_info.getD []),
                    bootstrap_vars := bootstrap_vars_of t }) := by
  intro tasks
  induction tasks with
  | nil => rfl
  | cons t rest ih =>
    cases har : t.workload.auto_run_info with
    | none =>
      have hs : dsi_task_loop_spec false none modified_files (t :: rest)
          = dsi_task_loop_spec false none modified_files rest := by
        conv_lhs => unfold dsi_task_loop_spec
        rw [har]
      rw [hs, List.filter_cons]
      simp only [har, Option.isSome_none, Bool.false_eq_true, if_false]
      exact ih
    | some blocks =>
      have hs : dsi_task_loop_spec false none modified_files (t :: rest)
          = ({ name := t.name, runs_on_variants := variants_spec blocks,
               bootstrap_vars := bootstrap_vars_of t } : DsiTask) ::
              dsi_task_loop_spec false none modified_files rest := by
        conv_lhs => unfold dsi_task_loop_spec
        rw [har]
        exact if_pos rfl
      rw [hs, List.filter_cons]
      simp only [har, Option.isSome_some, if_true, List.map_cons, Option.getD_some]
      rw [ih]

/-! ### The claims -/

/-- C1 (counterexample): the claim says a selected task carrying a bootstrap
pair gets exactly one extra `bootstrap_vars` entry (three entries in total).
For the bootstrap key `"test_control"` the Python dict insertion overwrites the
fixed name entry instead: the selected task carries the pair
`("test_control", "x")`, yet its `bootstrap_vars` has two entries and its
`"test_control"` entry no longer equals the task name `"b_x"`. -/
theorem c1_key_collision_counterexample :
    workload_init "/ws" "/ws/src/workloads/a/B.yml" conts_key_collision = .ok wl_key_collision
    ∧ all_tasks wl_key_collision
        = .ok [⟨"b_x", some "test_control", some "x", wl_key_collision⟩]
    ∧ generate_dsi_tasks [wl_key_collision] false none []
        = .ok [{ name := "b_x", runs_on_variants := [.str "v1"],
                 bootstrap_vars := [("test_control", some "x"),
                                    ("auto_workload_path", some "./src/workloads/a/B.yml")] }]
    ∧ ([("test_control", some "x"), ("auto_workload_path", some "./src/workloads/a/B.yml")]
        : List (String × Option String)).length ≠ 3 :=
  ⟨by decide, by decide, by decide, by decide⟩

/-- C1 (amended): the `bootstrap_vars` mapping of a task with no bootstrap
pair has exactly the two fixed entries — the task name under `"test_control"`
and the workload's relative path under `"auto_workload_path"`; a task whose
bootstrap key is nonempty and distinct from the two fixed keys gets exactly
that one extra entry appended.  (A key equal to a fixed key overwrites that
entry instead, and an empty key adds nothing — see the counterexample.) -/
theorem c1_bootstrap_vars_structure :
    ∀ t : GeneratedTask,
    (t.bootstrap_key = none →
      bootstrap_vars_of t = [("test_control", some t.name),
                            ("auto_workload_path", some (relative_path t.workload))]) ∧
    (∀ k, t.bootstrap_key = some k → k ≠ "" → k ≠ "test_control" →
      k ≠ "auto_workload_path" →
      bootstrap_vars_of t = [("test_control", some t.name),
                            ("auto_workload_path", some (relative_path t.workload)),
                            (k, t.bootstrap_value)]) := by
  intro t
  constructor
  · intro h
    simp only [bootstrap_vars_of, h]
  · intro k hk hne htc hawp
    simp only [bootstrap_vars_of, hk]
    rw [if_pos hne]
    unfold dict_set
    rw [if_neg]
    · rfl
    · simp [Ne.symm htc, Ne.symm hawp]

/-- C1 (witness): the two arms of `c1_bootstrap_vars_structure` at concrete
tasks. -/
theorem c1_bootstrap_vars_structure_witness :
    bootstrap_vars_of ⟨"b", none, none, wl_empty_auto_run⟩
      = [("test_control", some "b"), ("auto_workload_path", some "./src/workloads/a/B.yml")]
    ∧ bootstrap_vars_of ⟨"b_x", some "bootstrap_key", some "x", wl_empty_auto_run⟩
      = [("test_control", some "b_x"), ("auto_workload_path", some "./src/workloads/a/B.yml"),
         ("bootstrap_key", some "x")] := by
  constructor
  · have h := (c1_bootstrap_vars_structure ⟨"b", none, none, wl_empty_auto_run⟩).1 rfl
    rw [h]
    decide
  · have h := (c1_bootstrap_vars_structure
      ⟨"b_x", some "bootstrap_key", some "x", wl_empty_auto_run⟩).2
      "bootstrap_key" rfl (by decide) (by decide) (by decide)
    rw [h]
    decide

/-- C2: whenever `Repo.generate_dsi_tasks` succeeds, its output equals the
spec-side loop in which every selected task's `runs_on_variants` is
`variants_spec` — the union, over ALL conditional blocks of the task's owning
workload (not only the block that produced the task), of the operands of
`"mongodb_setup"` conditions with an `"$eq"` operator, list operands
flattened, any other operand a single value. -/
theorem c2_variants_union_over_all_blocks :
    ∀ (workloads : List Workload) (modified : Bool) (variant : Option String)
      (modified_files : List String) (tasks : List GeneratedTask) (out : List DsiTask),
    repo_tasks workloads = .ok tasks →
    generate_dsi_tasks workloads modified variant modified_files = .ok out →
    out = dsi_task_loop_spec modified variant modified_files tasks := by
  intro ws m v mf tasks out h1 h2
  unfold generate_dsi_tasks at h2
  rw [h1, except_bind_ok] at h2
  exact dsi_loop_ok_eq_spec m v mf tasks out h2

/-- C2 (witness): the theorem at the Scenario-B workload. -/
theorem c2_variants_union_witness :
    ([dsi_my_test_a, dsi_my_test_b] : List DsiTask)
      = dsi_task_loop_spec false none [] [task_my_test_a, task_my_test_b] :=
  c2_variants_union_over_all_blocks [wl_my_test] false none []
    [task_my_test_a, task_my_test_b] [dsi_my_test_a, dsi_my_test_b]
    (by decide) (by decide)

/-- C3 (counterexample): for the workload
`src/workloads/scale/NestedDir/MyTest.yml` only the FIRST path segment
(`scale`) is dropped, so the derived names are `nested_dir_my_test_a` and
`nested_dir_my_test_b`, not `my_test_a`/`my_test_b` as the claim states. -/
theorem c3_nested_dir_name_counterexample :
    workload_init "/ws" "src/workloads/scale/NestedDir/MyTest.yml" conts_my_test
      = .ok wl_my_test
    ∧ (generate_dsi_tasks [wl_my_test] false none []).map (fun l => l.map DsiTask.name)
      = .ok ["nested_dir_my_test_a", "nested_dir_my_test_b"]
    ∧ ("nested_dir_my_test_a" : String) ≠ "my_test_a" :=
  ⟨by decide, by decide, by decide⟩

/-- C3 (amended): the Scenario-B workload derives exactly the two tasks
`nested_dir_my_test_a` and `nested_dir_my_test_b`, each carrying its
bootstrap pair, and each selected with variant set `["standalone"]`. -/
theorem c3_nested_dir_tasks :
    workload_init "/ws" "src/workloads/scale/NestedDir/MyTest.yml" conts_my_test
      = .ok wl_my_test
    ∧ all_tasks wl_my_test = .ok [task_my_test_a, task_my_test_b]
    ∧ generate_dsi_tasks [wl_my_test] false none []
      = .ok [dsi_my_test_a, dsi_my_test_b] :=
  ⟨by decide, by decide, by decide⟩

/-- C4 (counterexample): the claim says a task is in the `ALL`-mode output iff
its workload has at least one conditional block.  A workload with `AutoRun: []`
has zero blocks, but its `auto_run_info` is the empty list — not `None` — so
`generate_dsi_tasks` keeps its task. -/
theorem c4_empty_autorun_counterexample :
    workload_init "/ws" "/ws/src/workloads/a/B.yml" conts_empty_auto_run
      = .ok wl_empty_auto_run
    ∧ (wl_empty_auto_run.auto_run_info.getD []).length = 0
    ∧ generate_dsi_tasks [wl_empty_auto_run] false none []
      = .ok [{ name := "b", runs_on_variants := [],
               bootstrap_vars := [("test_control", some "b"),
                                  ("auto_workload_path", some "./src/workloads/a/B.yml")] }] :=
  ⟨by decide, by decide, by decide⟩

/-- C4 (amended): in selection mode ALL (no target variant, not patch mode) a
candidate task appears in the output iff its owning workload carries
conditional-execution metadata at all (`auto_run_info` present — even as an
empty block list); tasks of workloads with no `AutoRun` key are silently
excluded. -/
theorem c4_all_mode_keeps_tasks_with_autorun :
    ∀ (modified_files : List String) (tasks : List GeneratedTask) (out : List DsiTask),
    dsi_task_loop false none modified_files tasks = .ok out →
    out = (tasks.filter (fun t => t.workload.auto_run_info.isSome)).map
      (fun t => { name := t.name,
                  runs_on_variants := variants_spec (t.workload.auto_run_info.getD []),
                  bootstrap_vars := bootstrap_vars_of t }) := by
  intro mf tasks out h
  rw [dsi_loop_ok_eq_spec false none mf tasks out h]
  exact dsi_loop_spec_all mf tasks

/-- C4 (witness): with one `AutoRun: []` task and one no-`AutoRun` task, the
ALL-mode output keeps exactly the former. -/
theorem c4_all_mode_witness :
    ([{ name := "b", runs_on_variants := [],
        bootstrap_vars := [("test_control", some "b"),
                           ("auto_workload_path", some "./src/workloads/a/B.yml")] }]
      : List DsiTask)
      = ([task_empty_auto_run, task_no_autorun].filter
          (fun t => t.workload.auto_run_info.isSome)).map
        (fun t => { name := t.name,
                    runs_on_variants := variants_spec (t.workload.auto_run_info.getD []),
                    bootstrap_vars := bootstrap_vars_of t }) :=
  c4_all_mode_keeps_tasks_with_autorun [] [task_empty_auto_run, task_no_autorun] _ (by decide)

/-- C5 (code bug): a block that is a mapping without a `When` entry makes
parsing raise `KeyError("When")` — not the schema `ValueError` the claim (and
the code's own error message) intends — because line 235 evaluates
`block["When"]` before testing `"When" not in block`.  A `When` entry whose
value is not a mapping does raise the schema `ValueError`. -/
theorem c5_missing_when_raises_keyerror :
    workload_init "/ws" "src/workloads/scale/Malformed.yml" conts_missing_when
      = .error (.keyError "When")
    ∧ workload_init "/ws" "src/workloads/scale/Malformed.yml" conts_when_not_mapping
      = .error (.valueError
          "Each AutoRun block must consist of a When and optional ThenRun section") :=
  ⟨by decide, by decide⟩

/-- C6: `all_tasks` never returns two equal tasks and returns them sorted by
the total order name, then bootstrap key, then bootstrap value, then workload
path; in particular a workload with two conditional blocks both having empty
`ThenRun` yields exactly one task. -/
theorem c6_all_tasks_nodup_sorted :
    (∀ (w : Workload) (ts : List GeneratedTask), all_tasks w = .ok ts →
      ts.Nodup ∧ List.Sorted taskLe ts)
    ∧ all_tasks wl_two_when_blocks
      = .ok [⟨"b", none, none, wl_two_when_blocks⟩] :=
  ⟨all_tasks_nodup_sorted, by decide⟩

/-- C6 (witness): the general part of `c6_all_tasks_nodup_sorted` at the
two-block workload. -/
theorem c6_all_tasks_nodup_sorted_witness :
    ([⟨"b", none, none, wl_two_when_blocks⟩] : List GeneratedTask).Nodup
    ∧ List.Sorted taskLe [⟨"b", none, none, wl_two_when_blocks⟩] :=
  c6_all_tasks_nodup_sorted.1 wl_two_when_blocks
    [⟨"b", none, none, wl_two_when_blocks⟩] (by decide)

/-- C7: a workload with no `AutoRun` key derives exactly one task, named its
snake-case base name, with no bootstrap key and no bootstrap value. -/
theorem c7_no_autorun_single_task (w : Workload) (n : String)
    (har : w.auto_run_info = none) (hn : snake_case_base_name w = .ok n) :
    all_tasks w = .ok [⟨n, none, none, w⟩] := by
  unfold all_tasks
  simp only [har, hn, except_bind_ok, except_pure]

/-- C7 (witness): `src/workloads/scale/InsertRemove.yml` yields exactly
`[{name: "insert_remove"}]`. -/
theorem c7_no_autorun_single_task_witness :
    all_tasks wl_insert_remove
      = .ok [⟨"insert_remove", none, none, wl_insert_remove⟩] :=
  c7_no_autorun_single_task wl_insert_remove "insert_remove" rfl (by decide)

/-- C8 (counterexample): `all_tasks` is not total in the workload's file path:
a path without the marker `"src/workloads/"` raises
`ValueError("Invalid workload path")` from
`_get_relative_path_from_src_workloads`. -/
theorem c8_bad_path_counterexample :
    all_tasks wl_bad_path = .error (.valueError "Invalid workload path") := by decide

/-- C8 (amended): `all_tasks` never fails provided the workload's file path
splits on `"src/workloads/"` into exactly two parts and every ThenRun entry of
its blocks is a single-entry mapping with a scalar string value. -/
theorem c8_all_tasks_total_on_wellformed (w : Workload) (a b : String)
    (hpath : py_split w.file_path "src/workloads/" = [a, b])
    (hblocks : ∀ bl ∈ w.auto_run_info.getD [], ∀ trb ∈ bl.then_run,
      is_single_str_pair trb = true) :
    except_is_ok (all_tasks w) = true := by
  obtain ⟨ts, hts⟩ := all_tasks_total w a b hpath hblocks
  rw [hts]
  rfl

/-- C8 (witness): the amended theorem at the Scenario-B workload. -/
theorem c8_all_tasks_total_witness : except_is_ok (all_tasks wl_my_test) = true :=
  c8_all_tasks_total_on_wellformed wl_my_test "" "scale/NestedDir/MyTest.yml"
    (by decide) (by decide)

/-- C9: the camel-case to snake-case conversion is idempotent; in particular
it is the identity on its own output. -/
theorem c9_to_snake_case_idempotent (s : String) :
    to_snake_case (to_snake_case s) = to_snake_case s :=
  to_snake_id_of_clean _ (to_snake_clean s)

/-- C10: every task name produced by `all_tasks` contains no ASCII uppercase
letter and no `-` character: base name and bootstrap-value suffix both pass
through the snake-case conversion. -/
theorem c10_task_names_no_upper_no_dash (w : Workload) (ts : List GeneratedTask)
    (h : all_tasks w = .ok ts) : ∀ t ∈ ts, clean_str t.name :=
  all_tasks_names_clean w ts h

/-- C10 (witness): the theorem at the Scenario-B workload and its first task. -/
theorem c10_task_names_witness : clean_str "nested_dir_my_test_a" :=
  c10_task_names_no_upper_no_dash wl_my_test [task_my_test_a, task_my_test_b]
    (by decide) task_my_test_a (by decide)
